import Mathlib

/-!
Verification of the JVM Configuration Resolution Engine of the
coroot-node-agent repository.

The repository contains several historical variants of the engine:

* `containers/jvm_param_parser.go` — the numeric (float64) variant:
  `parseMemorySize`, `parsePercentage`, `parseJVMParamsFromString`,
  `parseJVMParams`.  Embedded below under the same names.
* a variant of `parseJVMParamsFromString` (part_000, lines 677-974) that
  additionally tracks flag offsets and implements the
  trailing-percentage-override exception for the max-heap kind.  Embedded
  as `parseJVMParamsFromStringV2`.
* a live-flag-dump parser recognizing RAM fractions (part_000, lines
  1-186).  Embedded as `parseVMFlagsOutput`.
* a vendor-aware orchestrator (part_000, lines 187-676): `ParseJVMParams`,
  `detectJVMVendor`, `parseVMFlagsOutputVendor`, `parseFromCmdline`,
  `parseHotSpotGCType`, etc.

Modelling conventions:
* Go strings are `List Char`; byte offsets returned by
  `FindAllStringIndex` are modelled as character offsets (the inputs of
  interest are ASCII, and UTF-8 byte offsets are strictly monotone in
  character offsets, so every offset comparison made by the code is
  preserved).
* Go `float64` values are modelled as exact rationals (`ℚ`).
  `strconv.ParseFloat` is embedded with its special `inf`/`nan` forms,
  hexadecimal literals, underscore rule, overflow (`ErrRange`) boundary
  and round-to-zero underflow boundary (`parseFloatGo`); in-range finite
  values are kept exact rather than rounded to 53-bit mantissas, and
  `%.1f` formatting is modelled by exact round-half-to-even to one
  decimal, with a quotient beyond the float64 range printed as `"+Inf"`
  as `fmt` does.
* The regular expressions used by the code are embedded as direct
  scanners.  For each of the patterns in question two matches can never
  overlap (every match starts at offset 0, after a whitespace character,
  or with a `-` character, and no such character occurs in the interior
  of a match), hence Go's `FindAll` functions — leftmost match, then
  continue after the match end — return exactly the matches at *all*
  starting positions, which is how the scanners below are defined.
-/

set_option maxRecDepth 10000
set_option exponentiation.threshold 1200

namespace JVMSpec

abbrev Chars := List Char

/-- Go regexp `\s` character class: `[\t\n\f\r ]`. -/
def isWSC (c : Char) : Bool :=
  c = ' ' || c = '\t' || c = '\n' || c = '\x0c' || c = '\r'

/-- `unicode.IsSpace` restricted to ASCII (used by `strings.Fields` and
`strings.TrimSpace`). -/
def isSpaceGo (c : Char) : Bool := isWSC c || c = '\x0b'

def isDigitC (c : Char) : Bool := '0' ≤ c && c ≤ '9'

def isAlphaC (c : Char) : Bool := ('a' ≤ c && c ≤ 'z') || ('A' ≤ c && c ≤ 'Z')

def isAlnumC (c : Char) : Bool := isAlphaC c || isDigitC c

/-- The memory-unit character class `[kmgKMG]`. -/
def isHeapUnit (c : Char) : Bool :=
  c = 'k' || c = 'm' || c = 'g' || c = 'K' || c = 'M' || c = 'G'

def stripPfx : Chars → Chars → Option Chars
  | [], s => some s
  | _ :: _, [] => none
  | p :: ps, c :: cs => if c = p then stripPfx ps cs else none

def hasPfxB (p s : Chars) : Bool := (stripPfx p s).isSome

/-- `strings.Contains s pat` (argument order: pattern first here). -/
def containsSub (pat : Chars) : Chars → Bool
  | [] => pat.isEmpty
  | c :: cs => hasPfxB pat (c :: cs) || containsSub pat cs

def natOfDigits (ds : Chars) : ℕ := ds.foldl (fun a c => a * 10 + (c.toNat - 48)) 0

def pow10 (k : ℕ) : ℕ := 10 ^ k

/-- Exact value of a decimal literal `ds.fs`, kept in kernel-reducible
form (`mkRat` on ℕ arithmetic). -/
def decToRat (ds fs : Chars) : ℚ :=
  mkRat ((natOfDigits ds * pow10 fs.length + natOfDigits fs : ℕ) : ℤ) (pow10 fs.length)

/-- `q * m` for a natural scale factor, in kernel-reducible form. -/
def scaleRat (q : ℚ) (m : ℕ) : ℚ := mkRat (q.num * (m : ℤ)) q.den

/-- Decimal rendering of a natural number (`fmt.Sprintf("%d", ·)`),
via the fuel-based (hence kernel-reducible) core function. -/
def natDigits (n : ℕ) : Chars := Nat.toDigits 10 n

/-- Value `±(ds.fs) * 10^(±e)` of a parsed float literal. -/
def floatValue (neg : Bool) (ds fs : Chars) (eneg : Bool) (e : ℕ) : ℚ :=
  let n : ℕ := natOfDigits ds * pow10 fs.length + natOfDigits fs
  let num : ℕ := if eneg then n else n * pow10 e
  let den : ℕ := if eneg then pow10 fs.length * pow10 e else pow10 fs.length
  mkRat (if neg then -(num : ℤ) else (num : ℤ)) den

def toLowerC (c : Char) : Char :=
  if 'A' ≤ c ∧ c ≤ 'Z' then Char.ofNat (c.toNat + 32) else c

def toLowerS (s : Chars) : Chars := s.map toLowerC

/-- The value of a successful `strconv.ParseFloat`: a finite value
(modelled as an exact rational), a signed infinity, or NaN. -/
inductive GoFloat where
  | finite (q : ℚ)
  | inf (neg : Bool)
  | nan
deriving DecidableEq

def isHexDigit (c : Char) : Bool :=
  isDigitC c || ('a' ≤ toLowerC c && toLowerC c ≤ 'f')

def hexVal (c : Char) : ℕ :=
  if isDigitC c then c.toNat - 48 else (toLowerC c).toNat - 87

def natOfHexDigits (ds : Chars) : ℕ := ds.foldl (fun a c => a * 16 + hexVal c) 0

def eqFoldInf (s : Chars) : Bool :=
  toLowerS s = ("inf".data) || toLowerS s = ("infinity".data)

/-- `strconv`'s `special`: the whole string, after an optional sign, is
`inf`/`infinity` ignoring case, or an *unsigned* `nan` ignoring case (a
signed `nan` is rejected, as in the Go source, whose sign case falls
through to the infinity comparison only). -/
def specialGo (s : Chars) : Option GoFloat :=
  match s with
  | [] => none
  | c :: t =>
    if c = '+' then (if eqFoldInf t then some (GoFloat.inf false) else none)
    else if c = '-' then (if eqFoldInf t then some (GoFloat.inf true) else none)
    else if eqFoldInf s then some (GoFloat.inf false)
    else if toLowerS s = ("nan".data) then some GoFloat.nan
    else none

/-- `strconv.underscoreOK`'s scan: `saw` is the Go source's state
character (`^` start, `0` digit or base prefix, `_` underscore, `!`
other); an underscore must follow and be followed by a digit. -/
def underscoreLoop (hex : Bool) : Chars → Char → Bool
  | [], saw => !(saw = '_')
  | c :: cs, saw =>
    if isDigitC c || (hex && 'a' ≤ toLowerC c && toLowerC c ≤ 'f') then
      underscoreLoop hex cs '0'
    else if c = '_' then (if saw = '0' then underscoreLoop hex cs '_' else false)
    else if saw = '_' then false
    else underscoreLoop hex cs '!'

/-- `strconv.underscoreOK`: optional sign, optional `0b`/`0o`/`0x` base
prefix (which counts as a digit for separator purposes), then the scan. -/
def underscoreOK (s : Chars) : Bool :=
  let s1 : Chars :=
    match s with
    | c :: t => if c = '-' || c = '+' then t else s
    | [] => s
  match s1 with
  | c0 :: c1 :: rest =>
    if c0 = '0' && (toLowerC c1 = 'b' || toLowerC c1 = 'o' || toLowerC c1 = 'x') then
      underscoreLoop (toLowerC c1 = 'x') rest '0'
    else underscoreLoop false s1 '^'
  | _ => underscoreLoop false s1 '^'

/-- `readFloat` on decimal syntax `digits[.digits][(e|E)[+-]digits]`
(sign already stripped, underscores already validated and removed): at
least one digit in the mantissa, a present `e` requires at least one
exponent digit, and the whole string must be consumed, as `ParseFloat`
requires.  Returns sign and exact magnitude. -/
def parseDecTail (neg : Bool) (r0 : Chars) : Option (Bool × ℚ) :=
  let ds := r0.takeWhile isDigitC
  let r1 := r0.dropWhile isDigitC
  let (fs, r2) : Chars × Chars :=
    match r1 with
    | '.' :: t => (t.takeWhile isDigitC, t.dropWhile isDigitC)
    | _ => ([], r1)
  if ds.isEmpty && fs.isEmpty then none
  else
    match r2 with
    | [] => some (neg, floatValue false ds fs false 0)
    | e :: t =>
      if e = 'e' || e = 'E' then
        let (eneg, t1) : Bool × Chars :=
          match t with
          | '+' :: u => (false, u)
          | '-' :: u => (true, u)
          | _ => (false, t)
        let xs := t1.takeWhile isDigitC
        let t2 := t1.dropWhile isDigitC
        if xs.isEmpty || !t2.isEmpty then none
        else some (neg, floatValue false ds fs eneg (natOfDigits xs))
      else none

/-- Magnitude `(hs.fs base 16) · 2^±e` of a hexadecimal literal. -/
def magHex (hs fs : Chars) (eneg : Bool) (e : ℕ) : ℚ :=
  let m : ℕ := natOfHexDigits hs * 16 ^ fs.length + natOfHexDigits fs
  if eneg then mkRat (m : ℤ) (16 ^ fs.length * 2 ^ e)
  else mkRat ((m * 2 ^ e : ℕ) : ℤ) (16 ^ fs.length)

/-- `readFloat` on the hexadecimal mantissa after a `0x` prefix: hex
digits around an optional dot, and a *mandatory* `p`-exponent. -/
def parseHexTail (neg : Bool) (r0 : Chars) : Option (Bool × ℚ) :=
  let hs := r0.takeWhile isHexDigit
  let r1 := r0.dropWhile isHexDigit
  let (fs, r2) : Chars × Chars :=
    match r1 with
    | '.' :: t => (t.takeWhile isHexDigit, t.dropWhile isHexDigit)
    | _ => ([], r1)
  if hs.isEmpty && fs.isEmpty then none
  else
    match r2 with
    | [] => none
    | p :: t =>
      if p = 'p' || p = 'P' then
        let (eneg, t1) : Bool × Chars :=
          match t with
          | '+' :: u => (false, u)
          | '-' :: u => (true, u)
          | _ => (false, t)
        let xs := t1.takeWhile isDigitC
        let t2 := t1.dropWhile isDigitC
        if xs.isEmpty || !t2.isEmpty then none
        else some (neg, magHex hs fs eneg (natOfDigits xs))
      else none

/-- Sign and exact magnitude of a number literal: hexadecimal when a
`0x` prefix is followed by at least one more character (`i+2 < len(s)`
in the Go source), decimal otherwise. -/
def parseCore (s : Chars) : Option (Bool × ℚ) :=
  let (neg, r) : Bool × Chars :=
    match s with
    | '+' :: t => (false, t)
    | '-' :: t => (true, t)
    | _ => (false, s)
  match r with
  | '0' :: x :: rest =>
    if (x = 'x' || x = 'X') && !rest.isEmpty then parseHexTail neg rest
    else parseDecTail neg r
  | _ => parseDecTail neg r

/-- Largest magnitude that still rounds to zero (round half to even:
half the least subnormal, `2^-1075`, ties to the even zero). -/
def tinyBoundQ : ℚ := mkRat 1 (2 ^ 1075)

/-- Magnitudes from `2^1024 - 2^970` on round to `±Inf`, the case in
which `strconv.ParseFloat` reports `ErrRange`. -/
def ovfBoundQ : ℚ := mkRat ((2 ^ 1024 - 2 ^ 970 : ℕ) : ℤ) 1

/-- `strconv.ParseFloat` with a `nil` error: the special `inf`/`nan`
forms, then decimal or hexadecimal literals with Go's underscore rule;
`none` models a non-`nil` error — a syntax error or the out-of-range
(`ErrRange`) overflow path.  Magnitudes of at most `2^-1075` round to
zero with a `nil` error, as in the Go source; other finite values are
kept exact (the file's rational idealization of `float64`). -/
def parseFloatGo (s : Chars) : Option GoFloat :=
  match specialGo s with
  | some f => some f
  | none =>
    let r :=
      if s.any (fun c => c = '_') then
        if underscoreOK s then parseCore (s.filter fun c => !(c = '_')) else none
      else parseCore s
    match r with
    | none => none
    | some (neg, mag) =>
      if ovfBoundQ ≤ mag then none
      else some (GoFloat.finite (if mag ≤ tinyBoundQ then 0 else if neg then -mag else mag))

/-- Unit suffix of `parseMemorySize` (regex group `([kmgKMG]?)$` plus the
`switch` on the lower-cased unit). -/
def unitApply (ds fs rest : Chars) : Option ℚ :=
  match rest with
  | [] => some (decToRat ds fs)
  | [c] =>
    if c = 'k' || c = 'K' then some (scaleRat (decToRat ds fs) 1024)
    else if c = 'm' || c = 'M' then some (scaleRat (decToRat ds fs) (1024 * 1024))
    else if c = 'g' || c = 'G' then some (scaleRat (decToRat ds fs) (1024 * 1024 * 1024))
    else none
  | _ => none

/-- `parseMemorySize` of `containers/jvm_param_parser.go`: full match of
`^(\d+(?:\.\d+)?)([kmgKMG]?)$`, converted to bytes. -/
def parseMemorySize (sizeStr : Chars) : Option ℚ :=
  if sizeStr.isEmpty then none
  else
    let ds := sizeStr.takeWhile isDigitC
    let r1 := sizeStr.dropWhile isDigitC
    if ds.isEmpty then none
    else if r1.head? = some '.' then
      let fs := r1.tail.takeWhile isDigitC
      let r2 := r1.tail.dropWhile isDigitC
      if fs.isEmpty then none else unitApply ds fs r2
    else unitApply ds [] r1

/-- Matcher for the capture of `PFX(\d+[kmgKMG]?)` at the head of `s`;
returns the captured value and the rest of the input. -/
def matchSizeVal (pfx : Chars) (s : Chars) : Option (Chars × Chars) :=
  match stripPfx pfx s with
  | none => none
  | some r =>
    let ds := r.takeWhile isDigitC
    let r2 := r.dropWhile isDigitC
    if ds.isEmpty then none
    else
      match r2.head? with
      | some c => if isHeapUnit c then some (ds ++ [c], r2.tail) else some (ds, r2)
      | none => some (ds, [])

/-- Word-boundary wrapper `(?:^|\s)` around a matcher `m`: a match at
offset `i` either starts at 0 with `m` succeeding directly, or consumes a
whitespace character at `i` and applies `m` at `i + 1`. -/
def occAt (m : Chars → Option (Chars × Chars)) (s : Chars) (i : ℕ) : Option Chars :=
  if i = 0 then
    match m s with
    | some (v, _) => some v
    | none =>
      match s with
      | c :: cs => if isWSC c then (m cs).map (·.1) else none
      | [] => none
  else
    match s.drop i with
    | c :: cs => if isWSC c then (m cs).map (·.1) else none
    | [] => none

/-- All matches (value, offset) of a word-boundary-anchored pattern. -/
def scanB (m : Chars → Option (Chars × Chars)) (s : Chars) : List (Chars × ℕ) :=
  (List.range s.length).filterMap fun i => (occAt m s i).map fun v => (v, i)

/-- All matches (value, offset) of an unanchored pattern. -/
def scanFree (m : Chars → Option (Chars × Chars)) (s : Chars) : List (Chars × ℕ) :=
  (List.range s.length).filterMap fun i => ((m (s.drop i)).map (·.1)).map fun v => (v, i)

/-- Matcher for one `-XX:` token:
`-XX:[+-]?[A-Za-z][A-Za-z0-9]*(?:=[^\s]+)?`. -/
def matchXXTok (s : Chars) : Option (Chars × Chars) :=
  match stripPfx ("-XX:".data) s with
  | none => none
  | some r =>
    let (sign, r1) : Chars × Chars :=
      match r with
      | c :: cs => if c = '+' || c = '-' then ([c], cs) else ([], r)
      | [] => ([], [])
    match r1 with
    | c :: cs =>
      if isAlphaC c then
        let as := cs.takeWhile isAlnumC
        let r2 := cs.dropWhile isAlnumC
        let stem := ("-XX:".data) ++ sign ++ c :: as
        match r2 with
        | '=' :: r3 =>
          let vs := r3.takeWhile fun x => !isWSC x
          let r4 := r3.dropWhile fun x => !isWSC x
          if vs.isEmpty then some (stem, r2) else some (stem ++ '=' :: vs, r4)
        | _ => some (stem, r2)
      else none
    | [] => none

/-- All `-XX:` tokens of the input (already trimmed of their leading
whitespace, as `strings.TrimSpace` does in the code). -/
def scanXXAll (s : Chars) : List Chars := (scanB matchXXTok s).map (·.1)

/-- Matcher for the capture of `-XX:<name>=([0-9]+(?:\.[0-9]+)?)`. -/
def matchPctVal (name : Chars) (s : Chars) : Option (Chars × Chars) :=
  match stripPfx (("-XX:".data) ++ name ++ ['=']) s with
  | none => none
  | some r =>
    let ds := r.takeWhile isDigitC
    let r2 := r.dropWhile isDigitC
    if ds.isEmpty then none
    else if r2.head? = some '.' then
      let fs := r2.tail.takeWhile isDigitC
      let r4 := r2.tail.dropWhile isDigitC
      if fs.isEmpty then some (ds, r2) else some (ds ++ '.' :: fs, r4)
    else some (ds, r2)

/-- All matches of the percentage pattern for a given option name. -/
def scanPct (name : Chars) (s : Chars) : List (Chars × ℕ) :=
  scanFree (matchPctVal name) s

/-- Comma join, as `strings.Join(cleanMatches, ",")`. -/
def joinComma : List Chars → Chars
  | [] => []
  | [v] => v
  | v :: vs => v ++ ',' :: joinComma vs

/-- `parsePercentage` of `containers/jvm_param_parser.go`: last match of
`-XX:<name>=([0-9]+(?:\.[0-9]+)?)` in the comma-joined XX options,
converted with `strconv.ParseFloat` (the digit-shaped capture can never
be an `inf`/`nan` form, so only finite parses occur; a non-`nil` error
falls through to the 0 default). -/
def parsePercentage (xxOptions : Chars) (name : Chars) : ℚ :=
  match (scanPct name xxOptions).getLast? with
  | some (v, _) =>
    match parseFloatGo v with
    | some (GoFloat.finite x) => x
    | _ => 0
  | none => 0

/-- The loop choosing the match with the greatest position
(`rightmostPos := -1; if match.pos > rightmostPos …`). -/
def pickStep (acc : Option (Chars × ℕ)) (x : Chars × ℕ) : Option (Chars × ℕ) :=
  match acc with
  | none => some x
  | some y => if y.2 < x.2 then some x else some y

def pickRightmost (l : List (Chars × ℕ)) : Option (Chars × ℕ) := l.foldl pickStep none

/-- `JVMParams` of `containers/jvm_param_parser.go` (float64 fields
modelled as exact rationals). -/
structure JVMParams where
  JavaMaxHeapSize : ℚ := 0
  JavaInitialHeapSize : ℚ := 0
  JavaMaxHeapAsPercentage : ℚ := 0
  JavaInitialHeapAsPercentage : ℚ := 0
  XXOptions : Chars := []
deriving DecidableEq

def xmxPfx : Chars := ("-Xmx".data)
def xxMaxHeapPfx : Chars := ("-XX:MaxHeapSize=".data)
def xmsPfx : Chars := ("-Xms".data)
def xxMinHeapPfx : Chars := ("-XX:MinHeapSize=".data)
def maxRAMPctName : Chars := ("MaxRAMPercentage".data)
def initRAMPctName : Chars := ("InitialRAMPercentage".data)

/-- The pooled max-heap candidate list: all `-Xmx` matches followed by all
`-XX:MaxHeapSize=` matches, as the code appends them. -/
def maxHeapMatchesOf (input : Chars) : List (Chars × ℕ) :=
  scanB (matchSizeVal xmxPfx) input ++ scanB (matchSizeVal xxMaxHeapPfx) input

/-- The pooled initial-heap candidate list. -/
def initHeapMatchesOf (input : Chars) : List (Chars × ℕ) :=
  scanB (matchSizeVal xmsPfx) input ++ scanB (matchSizeVal xxMinHeapPfx) input

/-- Byte value of the rightmost occurrence of a pooled candidate list
(0 when the list is empty or the winning value fails to parse). -/
def rightmostSize (l : List (Chars × ℕ)) : ℚ :=
  match pickRightmost l with
  | some (v, _) =>
    match parseMemorySize v with
    | some x => x
    | none => 0
  | none => 0

/-- `parseJVMParamsFromString` of `containers/jvm_param_parser.go`. -/
def parseJVMParamsFromString (input : Chars) : JVMParams :=
  let sMax := rightmostSize (maxHeapMatchesOf input)
  let sInit := rightmostSize (initHeapMatchesOf input)
  let xxStr := joinComma (scanXXAll input)
  let maxPct := parsePercentage xxStr maxRAMPctName
  let initPct := parsePercentage xxStr initRAMPctName
  { JavaMaxHeapSize := if 0 < maxPct then -1 else sMax
    JavaInitialHeapSize := if 0 < initPct then -1 else sInit
    JavaMaxHeapAsPercentage := maxPct
    JavaInitialHeapAsPercentage := initPct
    XXOptions := xxStr }

/-- Offset of the last `-XX:MaxRAMPercentage=<num>` match in the raw
input, `-1` when absent (variant with position tracking). -/
def lastPctPosOf (input : Chars) : ℤ :=
  match (scanPct maxRAMPctName input).getLast? with
  | some (_, q) => (q : ℤ)
  | none => -1

/-- `parseJVMParamsFromString` of the part_000 variant (lines 773-935):
identical extraction, but with the position-sensitive precedence block:
for the max-heap kind a percentage beats the absolute sizes only when the
winning absolute value is 0, or when there are several absolute
occurrences and the last percentage occurrence sits after the rightmost
of them; for the initial-heap kind a percentage wins only when the
absolute value is 0. -/
def parseJVMParamsFromStringV2 (input : Chars) : JVMParams :=
  let maxM := maxHeapMatchesOf input
  let (sMax, maxPos) : ℚ × ℤ :=
    match pickRightmost maxM with
    | some (v, p) =>
      match parseMemorySize v with
      | some x => (x, (p : ℤ))
      | none => (0, -1)
    | none => (0, -1)
  let sInit := rightmostSize (initHeapMatchesOf input)
  let xxStr := joinComma (scanXXAll input)
  let (maxPct, pctPos) : ℚ × ℤ :=
    match (scanPct maxRAMPctName input).getLast? with
    | some (_, q) => (parsePercentage xxStr maxRAMPctName, (q : ℤ))
    | none => (0, -1)
  let initPct := parsePercentage xxStr initRAMPctName
  let sMax' : ℚ :=
    if 0 < maxPct then
      if sMax = 0 then -1
      else if 1 < maxM.length ∧ maxPos < pctPos then -1
      else sMax
    else sMax
  let sInit' : ℚ := if 0 < initPct then (if sInit = 0 then -1 else sInit) else sInit
  { JavaMaxHeapSize := sMax'
    JavaInitialHeapSize := sInit'
    JavaMaxHeapAsPercentage := maxPct
    JavaInitialHeapAsPercentage := initPct
    XXOptions := xxStr }

def lookupEnv (env : List (Chars × Chars)) (name : Chars) : Option Chars :=
  match env.find? fun kv => decide (kv.1 = name) with
  | some kv => some kv.2
  | none => none

def envVarNames : List Chars :=
  [("JAVA_TOOL_OPTIONS".data), ("_JAVA_OPTIONS".data),
   ("JDK_JAVA_OPTIONS".data), ("IBM_JAVA_OPTIONS".data)]

/-- One step of the `strings.Builder` accumulation: a space separator is
written only when the builder is nonempty. -/
def appendPiece (acc v : Chars) : Chars := if acc.isEmpty then v else acc ++ ' ' :: v

/-- The concatenated blob built by `parseJVMParams`: the non-empty values
of the four option variables in order, then the command line. -/
def combinedArgs (env : List (Chars × Chars)) (cmdline : Chars) : Chars :=
  let e := envVarNames.foldl
    (fun acc name =>
      match lookupEnv env name with
      | some v => if v.isEmpty then acc else appendPiece acc v
      | none => acc) []
  if cmdline.isEmpty then e else appendPiece e cmdline

/-- `parseJVMParams` of `containers/jvm_param_parser.go` (the environment
snapshot is passed explicitly; reading `/proc/<pid>/environ` is outside
the engine). -/
def parseJVMParams (cmdline : Chars) (env : List (Chars × Chars)) : JVMParams :=
  parseJVMParamsFromString (combinedArgs env cmdline)

/-! ### Shared string helpers for the part_000 variants -/

def trimSpaceGo (s : Chars) : Chars :=
  ((s.dropWhile isSpaceGo).reverse.dropWhile isSpaceGo).reverse

/-- Accumulator pass of `strings.Fields`; `acc` holds the current word
reversed. -/
def fieldsAux : Chars → Chars → List Chars
  | [], acc => if acc.isEmpty then [] else [acc.reverse]
  | c :: cs, acc =>
    if isSpaceGo c then
      if acc.isEmpty then fieldsAux cs [] else acc.reverse :: fieldsAux cs []
    else fieldsAux cs (c :: acc)

/-- `strings.Fields`: split around runs of whitespace. -/
def fieldsGo (s : Chars) : List Chars := fieldsAux s []

/-- `extractFlagValue`: capture of the first match of
`-XX:<name>=([^\s]+)`. -/
def extractLoop (pat : Chars) : Chars → Chars
  | [] => []
  | c :: cs =>
    match stripPfx pat (c :: cs) with
    | some r =>
      let v := r.takeWhile fun x => !isWSC x
      if v.isEmpty then extractLoop pat cs else v
    | none => extractLoop pat cs

def extractFlagValue (line name : Chars) : Chars :=
  extractLoop (("-XX:".data) ++ name ++ ['=']) line

/-! ### GC classification (identical in part_000 lines 39-88 and 462-511) -/

def gcFlagsTable : List (Chars × Chars) :=
  [(("+UseZGC".data), ("ZGC".data)),
   (("+UseShenandoahGC".data), ("ShenandoahGC".data)),
   (("+UseG1GC".data), ("G1GC".data)),
   (("+UseParallelGC".data), ("ParallelGC".data)),
   (("+UseParallelOldGC".data), ("ParallelOldGC".data)),
   (("+UseConcMarkSweepGC".data), ("ConcMarkSweepGC".data)),
   (("+UseSerialGC".data), ("SerialGC".data))]

/-- Inner loop of the explicit-flag scan: every contained table entry
overwrites the accumulator. -/
def gcStep (acc : Chars) (flag : Chars) : Chars :=
  gcFlagsTable.foldl (fun a e => if containsSub e.1 flag then e.2 else a) acc

/-- The substring-inference loop (with its early returns): the first flag
matching a category decides, categories tested in the order G1, Parallel,
ConcMarkSweep/CMS, Serial within each flag. -/
def inferGCLoop : List Chars → Chars
  | [] => []
  | f :: fs =>
    if containsSub ("G1".data) f then ("G1GC".data)
    else if containsSub ("Parallel".data) f && !containsSub ("-UseParallelGC".data) f then
      ("ParallelGC".data)
    else if containsSub ("ConcMarkSweep".data) f || containsSub ("CMS".data) f then
      ("ConcMarkSweepGC".data)
    else if containsSub ("Serial".data) f && !containsSub ("-UseSerialGC".data) f then
      ("SerialGC".data)
    else inferGCLoop fs

def unknownGC : Chars := ("Unknown".data)

/-- `parseHotSpotGCType` (also the body of the vendor-less `parseGCType`
of the fraction-aware variant). -/
def parseHotSpotGCType (flags : List Chars) : Chars :=
  let detected := flags.foldl gcStep []
  if detected.isEmpty then
    let inf := inferGCLoop flags
    if inf.isEmpty then unknownGC else inf
  else detected

def parseOpenJ9GCType : List Chars → Chars
  | [] => ("Unknown (OpenJ9)".data)
  | f :: fs =>
    if containsSub ("gencon".data) f then ("Generational Concurrent (OpenJ9)".data)
    else if containsSub ("optthruput".data) f then ("Throughput (OpenJ9)".data)
    else if containsSub ("optavgpause".data) f then ("Average Pause (OpenJ9)".data)
    else if containsSub ("balanced".data) f then ("Balanced (OpenJ9)".data)
    else parseOpenJ9GCType fs

inductive JVMVendor where
  | Unknown
  | HotSpot
  | OpenJ9
  | GraalVM
deriving DecidableEq

/-- Vendor-aware `parseGCType` of part_000 lines 452-459. -/
def parseGCType (flags : List Chars) (vendor : JVMVendor) : Chars :=
  match vendor with
  | .OpenJ9 => parseOpenJ9GCType flags
  | _ => parseHotSpotGCType flags

/-! ### Fraction-aware live-dump parser (part_000 lines 90-186) -/

def maxHeapSizeEq : Chars := ("MaxHeapSize=".data)
def minHeapSizeEq : Chars := ("MinHeapSize=".data)
def initialHeapSizeEq : Chars := ("InitialHeapSize=".data)
def maxRAMPctEq : Chars := ("MaxRAMPercentage=".data)
def initRAMPctEq : Chars := ("InitialRAMPercentage=".data)
structure JVMParamsStr where
  JavaMaxHeapSize : Chars := []
  JavaInitialHeapSize : Chars := []
  JavaMaxHeapAsPercentage : Chars := []
  JavaInitialHeapAsPercentage : Chars := []
  GCType : Chars := []
deriving DecidableEq

def detectJVMVendor (vmFlagsOutput : Chars) : JVMVendor :=
  let o := toLowerS vmFlagsOutput
  if containsSub ("openj9".data) o || containsSub ("eclipse".data) o
      || containsSub ("ibm".data) o then .OpenJ9
  else if containsSub ("graalvm".data) o || containsSub ("graal".data) o then .GraalVM
  else if containsSub ("hotspot".data) o || containsSub ("openjdk".data) o
      || containsSub ("oracle".data) o then .HotSpot
  else if containsSub ("-xx:maxheapsize=".data) o
      || containsSub ("-xx:initialheapsize=".data) o then .HotSpot
  else .Unknown

/-- `detectJVMVendorWithSystemProperties`, with the transport results
passed explicitly (`none` models a failing transport command). -/
def detectJVMVendorWithSystemP (props version : Option Chars) : JVMVendor :=
  match props with
  | none => .Unknown
  | some p0 =>
    let p := toLowerS p0
    if containsSub ("java.vm.name".data) p &&
        (containsSub ("openj9".data) p || containsSub ("eclipse".data) p
          || containsSub ("ibm".data) p) then .OpenJ9
    else if containsSub ("java.vm.name".data) p && containsSub ("graalvm".data) p then .GraalVM
    else if containsSub ("java.vm.name".data) p &&
        (containsSub ("hotspot".data) p || containsSub ("openjdk".data) p) then .HotSpot
    else if containsSub ("java.vendor".data) p &&
        (containsSub ("eclipse".data) p || containsSub ("ibm".data) p) then .OpenJ9
    else if containsSub ("java.vendor".data) p && containsSub ("oracle".data) p then .HotSpot
    else
      match version with
      | none => .Unknown
      | some v0 =>
        let v := toLowerS v0
        if containsSub ("openj9".data) v || containsSub ("eclipse".data) v
            || containsSub ("ibm".data) v then .OpenJ9
        else if containsSub ("graalvm".data) v then .GraalVM
        else if containsSub ("hotspot".data) v || containsSub ("openjdk".data) v then .HotSpot
        else .Unknown

/-- Suffix `\s*([kmgt]?)b?$` of the `parseSize` regex, producing
`<digits>×<multiplier>` on a full match. -/
def parseSizeUnit (ds r2 : Chars) : Chars :=
  let r3 := r2.dropWhile isWSC
  let (unit, r4) : Chars × Chars :=
    match r3 with
    | c :: cs => if c = 'k' || c = 'm' || c = 'g' || c = 't' then ([c], cs) else ([], r3)
    | [] => ([], [])
  let r5 : Chars :=
    match r4 with
    | 'b' :: t => t
    | _ => r4
  if !r5.isEmpty then []
  else
    let m : ℕ :=
      match unit with
      | ['k'] => 1024
      | ['m'] => 1024 * 1024
      | ['g'] => 1024 * 1024 * 1024
      | ['t'] => 1024 * 1024 * 1024 * 1024
      | _ => 1
    ds ++ '×' :: natDigits m

/-- Tail of `parseSize` after the `^\d+$` shortcut: full match of
`^(\d+(\.\d+)?)\s*([kmgt]?)b?$`. -/
def parseSizeTail (ds : Chars) (r1 : Chars) : Chars :=
  match r1 with
  | '.' :: t =>
    let fs := t.takeWhile isDigitC
    if fs.isEmpty then [] else parseSizeUnit ds (t.dropWhile isDigitC)
  | _ => parseSizeUnit ds r1

/-- `parseSize` of the orchestrator variant (part_000 lines 372-418):
plain digit strings pass through; sized values are rendered as
`<digits>×<multiplier>`. -/
def parseSize (sizeStr : Chars) : Chars :=
  if sizeStr.isEmpty then []
  else
    let s := toLowerS (trimSpaceGo sizeStr)
    if s.isEmpty then []
    else if s.all isDigitC then s
    else
      let ds := s.takeWhile isDigitC
      if ds.isEmpty then [] else parseSizeTail ds (s.dropWhile isDigitC)

def parseGCTypeFromCmdline : List Chars → Chars
  | [] => unknownGC
  | arg :: rest =>
    if containsSub ("-XX:+UseZGC".data) arg then ("ZGC".data)
    else if containsSub ("-XX:+UseShenandoahGC".data) arg then ("ShenandoahGC".data)
    else if containsSub ("-XX:+UseG1GC".data) arg then ("G1GC".data)
    else if containsSub ("-XX:+UseParallelGC".data) arg then ("ParallelGC".data)
    else if containsSub ("-XX:+UseParallelOldGC".data) arg then ("ParallelOldGC".data)
    else if containsSub ("-XX:+UseConcMarkSweepGC".data) arg then ("ConcMarkSweepGC".data)
    else if containsSub ("-XX:+UseSerialGC".data) arg then ("SerialGC".data)
    else if containsSub ("-Xgcpolicy:gencon".data) arg then ("Generational Concurrent (OpenJ9)".data)
    else if containsSub ("-Xgcpolicy:optthruput".data) arg then ("Throughput (OpenJ9)".data)
    else if containsSub ("-Xgcpolicy:optavgpause".data) arg then ("Average Pause (OpenJ9)".data)
    else if containsSub ("-Xgcpolicy:balanced".data) arg then ("Balanced (OpenJ9)".data)
    else parseGCTypeFromCmdline rest

/-- The per-argument `switch` of `parseFromCmdline`. -/
def cmdStep (p : JVMParamsStr) (arg : Chars) : JVMParamsStr :=
  if hasPfxB ("-Xmx".data) arg then
    let size := parseSize (arg.drop 4)
    if size.isEmpty then p else { p with JavaMaxHeapSize := size }
  else if hasPfxB ("-Xms".data) arg then
    let size := parseSize (arg.drop 4)
    if size.isEmpty then p else { p with JavaInitialHeapSize := size }
  else if hasPfxB ("-XX:MaxHeapSize=".data) arg then { p with JavaMaxHeapSize := arg.drop 16 }
  else if hasPfxB ("-XX:InitialHeapSize=".data) arg then { p with JavaInitialHeapSize := arg.drop 20 }
  else if hasPfxB ("-XX:MaxRAMPercentage=".data) arg then { p with JavaMaxHeapAsPercentage := arg.drop 21 }
  else if hasPfxB ("-XX:InitialRAMPercentage=".data) arg then { p with JavaInitialHeapAsPercentage := arg.drop 25 }
  else p

/-- `parseFromCmdline` of part_000 lines 338-369. -/
def parseFromCmdline (cmdline : Chars) : JVMParamsStr :=
  let args := fieldsGo cmdline
  let p := args.foldl cmdStep {}
  { p with GCType := parseGCTypeFromCmdline args }

def extractOpenJ9Size (flag pfx : Chars) : Chars :=
  if hasPfxB pfx flag then parseSize (flag.drop pfx.length) else []

/-- Per-flag step of `parseHotSpotVMFlags` (part_000 lines 562-602). -/
def hsStep (p : JVMParamsStr) (flag : Chars) : JVMParamsStr :=
  if hasPfxB ("-XX:".data) flag then
    if containsSub maxHeapSizeEq flag then
      let v := extractFlagValue flag ("MaxHeapSize".data)
      if v.isEmpty then p else { p with JavaMaxHeapSize := v }
    else if containsSub minHeapSizeEq flag then
      let v := extractFlagValue flag ("MinHeapSize".data)
      if v.isEmpty then p else { p with JavaInitialHeapSize := v }
    else if containsSub initialHeapSizeEq flag then
      let v := extractFlagValue flag ("InitialHeapSize".data)
      if v.isEmpty then p else { p with JavaInitialHeapSize := v }
    else if containsSub maxRAMPctEq flag then
      let v := extractFlagValue flag ("MaxRAMPercentage".data)
      if v.isEmpty then p else { p with JavaMaxHeapAsPercentage := v }
    else if containsSub initRAMPctEq flag then
      let v := extractFlagValue flag ("InitialRAMPercentage".data)
      if v.isEmpty then p else { p with JavaInitialHeapAsPercentage := v }
    else p
  else p

def parseHotSpotVMFlags (s : Chars) : JVMParamsStr := (fieldsGo s).foldl hsStep {}

/-- Per-flag step of `parseOpenJ9VMFlags` (part_000 lines 605-644). -/
def oj9Step (p : JVMParamsStr) (flag : Chars) : JVMParamsStr :=
  if containsSub ("-Xmx".data) flag then
    let v := extractOpenJ9Size flag ("-Xmx".data)
    if v.isEmpty then p else { p with JavaMaxHeapSize := v }
  else if containsSub ("-Xms".data) flag then
    let v := extractOpenJ9Size flag ("-Xms".data)
    if v.isEmpty then p else { p with JavaInitialHeapSize := v }
  else if hasPfxB ("-XX:".data) flag && containsSub ['='] flag then
    if containsSub maxHeapSizeEq flag then
      let v := extractFlagValue flag ("MaxHeapSize".data)
      if v.isEmpty then p else { p with JavaMaxHeapSize := v }
    else if containsSub initialHeapSizeEq flag then
      let v := extractFlagValue flag ("InitialHeapSize".data)
      if v.isEmpty then p else { p with JavaInitialHeapSize := v }
    else p
  else p

def parseOpenJ9VMFlags (s : Chars) : JVMParamsStr := (fieldsGo s).foldl oj9Step {}

def parseGraalVMFlags (s : Chars) : JVMParamsStr := parseHotSpotVMFlags s

/-- `parseVMFlagsOutput` of the orchestrator variant (part_000 lines
533-559), dispatching on the vendor. -/
def parseVMFlagsOutputVendor (vmFlagsOutput : Chars) (vendor : JVMVendor) : JVMParamsStr :=
  if (trimSpaceGo vmFlagsOutput).isEmpty then {}
  else
    let params : JVMParamsStr :=
      match vendor with
      | .OpenJ9 => parseOpenJ9VMFlags vmFlagsOutput
      | .GraalVM => parseGraalVMFlags vmFlagsOutput
      | _ => parseHotSpotVMFlags vmFlagsOutput
    { params with GCType := parseGCType (fieldsGo vmFlagsOutput) vendor }

/-- The vendor chosen by the orchestrator: system properties and version
first, VM-flags heuristics when those yield `Unknown`. -/
def orchVendor (vmFlags : Chars) (props version : Option Chars) : JVMVendor :=
  let v0 := detectJVMVendorWithSystemP props version
  if v0 = JVMVendor.Unknown then detectJVMVendor vmFlags else v0

/-- The field-by-field fallback merge of `ParseJVMParams`
(part_000 lines 250-268). -/
def mergeFallback (p c : JVMParamsStr) : JVMParamsStr :=
  { JavaMaxHeapSize :=
      if !c.JavaMaxHeapSize.isEmpty then c.JavaMaxHeapSize else p.JavaMaxHeapSize
    JavaInitialHeapSize :=
      if !c.JavaInitialHeapSize.isEmpty then c.JavaInitialHeapSize else p.JavaInitialHeapSize
    JavaMaxHeapAsPercentage :=
      if !c.JavaMaxHeapAsPercentage.isEmpty then c.JavaMaxHeapAsPercentage
      else p.JavaMaxHeapAsPercentage
    JavaInitialHeapAsPercentage :=
      if !c.JavaInitialHeapAsPercentage.isEmpty then c.JavaInitialHeapAsPercentage
      else p.JavaInitialHeapAsPercentage
    GCType :=
      if p.GCType = unknownGC ∧ c.GCType ≠ unknownGC then c.GCType else p.GCType }

/-- `ParseJVMParams` of the orchestrator variant (part_000 lines
228-271).  The Attach Transport results are passed explicitly: `none`
models `jvm.GetVMFlags` / `jvm.GetSystemProperties` / `jvm.GetVersion`
returning an error. -/
def ParseJVMParams (vmFlags props version : Option Chars) (cmdline : Chars) : JVMParamsStr :=
  match vmFlags with
  | none => parseFromCmdline cmdline
  | some fl =>
    let params := parseVMFlagsOutputVendor fl (orchVendor fl props version)
    if params.JavaMaxHeapSize.isEmpty && params.JavaInitialHeapSize.isEmpty then
      mergeFallback params (parseFromCmdline cmdline)
    else params

/-! ### Helper lemmas -/

theorem pickStep_or (acc : Option (Chars × ℕ)) (x : Chars × ℕ) :
    pickStep acc x = some x ∨ pickStep acc x = acc := by
  unfold pickStep
  cases acc with
  | none => exact Or.inl rfl
  | some y =>
    by_cases h : y.2 < x.2
    · exact Or.inl (by simp [h])
    · exact Or.inr (by simp [h])

theorem pickStep_bounds (acc : Option (Chars × ℕ)) (x : Chars × ℕ) :
    ∃ z, pickStep acc x = some z ∧ x.2 ≤ z.2 ∧ ∀ y, acc = some y → y.2 ≤ z.2 := by
  unfold pickStep
  cases acc with
  | none => exact ⟨x, rfl, le_refl _, fun y hy => by cases hy⟩
  | some y =>
    by_cases h : y.2 < x.2
    · refine ⟨x, by simp [h], le_refl _, fun z hz => ?_⟩
      cases hz; omega
    · refine ⟨y, by simp [h], by omega, fun z hz => ?_⟩
      cases hz; omega

theorem pick_acc_le (l : List (Chars × ℕ)) :
    ∀ (y w : Chars × ℕ), l.foldl pickStep (some y) = some w → y.2 ≤ w.2 := by
  induction l with
  | nil => intro y w h; cases h; omega
  | cons x xs ih =>
    intro y w h
    simp only [List.foldl_cons] at h
    obtain ⟨z, hz, _, hyz⟩ := pickStep_bounds (some y) x
    rw [hz] at h
    exact (hyz y rfl).trans (ih z w h)

theorem pick_mem_le (l : List (Chars × ℕ)) :
    ∀ (acc : Option (Chars × ℕ)) (w : Chars × ℕ), l.foldl pickStep acc = some w →
      ∀ x ∈ l, x.2 ≤ w.2 := by
  induction l with
  | nil => intro acc w _ x hx; cases hx
  | cons a as ih =>
    intro acc w h x hx
    simp only [List.foldl_cons] at h
    rcases List.mem_cons.mp hx with rfl | hx'
    · obtain ⟨z, hz, hxz, _⟩ := pickStep_bounds acc x
      rw [hz] at h
      exact hxz.trans (pick_acc_le as z w h)
    · exact ih _ w h x hx'

theorem pick_mem (l : List (Chars × ℕ)) :
    ∀ (acc : Option (Chars × ℕ)) (w : Chars × ℕ), l.foldl pickStep acc = some w →
      acc = some w ∨ w ∈ l := by
  induction l with
  | nil => intro acc w h; exact Or.inl h
  | cons a as ih =>
    intro acc w h
    simp only [List.foldl_cons] at h
    rcases ih (pickStep acc a) w h with h1 | h1
    · rcases pickStep_or acc a with h2 | h2
      · rw [h2] at h1
        cases h1
        exact Or.inr (List.mem_cons_self _ _)
      · rw [h2] at h1
        exact Or.inl h1
    · exact Or.inr (List.mem_cons_of_mem _ h1)

theorem pick_some_acc (l : List (Chars × ℕ)) :
    ∀ y : Chars × ℕ, ∃ w, l.foldl pickStep (some y) = some w := by
  induction l with
  | nil => exact fun y => ⟨y, rfl⟩
  | cons a as ih =>
    intro y
    simp only [List.foldl_cons]
    obtain ⟨z, hz, -, -⟩ := pickStep_bounds (some y) a
    rw [hz]
    exact ih z

theorem pickRightmost_some (l : List (Chars × ℕ)) (h : l ≠ []) :
    ∃ w, pickRightmost l = some w := by
  cases l with
  | nil => exact absurd rfl h
  | cons a as =>
    unfold pickRightmost
    simp only [List.foldl_cons]
    exact pick_some_acc as a

theorem mem_scanB (m : Chars → Option (Chars × Chars)) (s v : Chars) (i : ℕ) :
    (v, i) ∈ scanB m s ↔ i < s.length ∧ occAt m s i = some v := by
  simp only [scanB, List.mem_filterMap, List.mem_range, Option.map_eq_some']
  constructor
  · rintro ⟨a, ha, w, hw, heq⟩
    cases heq
    exact ⟨ha, hw⟩
  · rintro ⟨hi, hv⟩
    exact ⟨i, hi, v, hv, rfl⟩

theorem drop_append_len (a : Chars) : ∀ (l : Chars) (q : ℕ), (a ++ l).drop (a.length + q) = l.drop q := by
  induction a with
  | nil => intro l q; simp
  | cons c cs ih =>
    intro l q
    simp only [List.length_cons, List.cons_append, Nat.succ_add, List.drop_succ_cons]
    exact ih l q

theorem decToRat_nonneg (ds fs : Chars) : 0 ≤ decToRat ds fs := by
  unfold decToRat
  rw [Rat.mkRat_eq_div]
  apply div_nonneg
  · exact_mod_cast Int.ofNat_nonneg _
  · exact_mod_cast Nat.zero_le _

theorem scaleRat_nonneg (q : ℚ) (m : ℕ) (h : 0 ≤ q) : 0 ≤ scaleRat q m := by
  unfold scaleRat
  rw [Rat.mkRat_eq_div]
  apply div_nonneg
  · have h1 : 0 ≤ q.num := Rat.num_nonneg.mpr h
    have h2 : (0 : ℤ) ≤ (m : ℤ) := Int.ofNat_nonneg _
    exact_mod_cast mul_nonneg h1 h2
  · exact_mod_cast Nat.zero_le _

theorem unitApply_nonneg (ds fs rest : Chars) (x : ℚ) (h : unitApply ds fs rest = some x) :
    0 ≤ x := by
  unfold unitApply at h
  split at h
  · cases h
    exact decToRat_nonneg ds fs
  · split_ifs at h <;> cases h <;> exact scaleRat_nonneg _ _ (decToRat_nonneg _ _)
  · cases h

theorem parseMemorySize_nonneg (s : Chars) (x : ℚ) (h : parseMemorySize s = some x) :
    0 ≤ x := by
  unfold parseMemorySize at h
  dsimp only at h
  split_ifs at h <;> first
    | cases h
    | exact unitApply_nonneg _ _ _ _ h

theorem matchSizeVal_shape (pfx s v r : Chars) (h : matchSizeVal pfx s = some (v, r)) :
    ∃ ds u, v = ds ++ u ∧ ds ≠ [] ∧ (∀ c ∈ ds, isDigitC c = true) ∧
      (u = [] ∨ ∃ c, u = [c] ∧ isHeapUnit c = true) := by
  unfold matchSizeVal at h
  rcases h0 : stripPfx pfx s with - | r0
  · rw [h0] at h; cases h
  · rw [h0] at h
    dsimp only at h
    have hds : ∀ c ∈ r0.takeWhile isDigitC, isDigitC c = true :=
      fun c hc => List.mem_takeWhile_imp hc
    split_ifs at h with he
    rcases hh : (List.dropWhile isDigitC r0).head? with - | c
    · rw [hh] at h
      dsimp only at h
      cases h
      refine ⟨_, [], (List.append_nil _).symm, ?_, hds, Or.inl rfl⟩
      simpa [List.isEmpty_iff] using he
    · rw [hh] at h
      dsimp only at h
      split_ifs at h with hc
      · cases h
        refine ⟨_, [c], rfl, ?_, hds, Or.inr ⟨c, rfl, hc⟩⟩
        simpa [List.isEmpty_iff] using he
      · cases h
        refine ⟨_, [], (List.append_nil _).symm, ?_, hds, Or.inl rfl⟩
        simpa [List.isEmpty_iff] using he

theorem occAt_size_shape (pfx input v : Chars) (i : ℕ)
    (h : occAt (matchSizeVal pfx) input i = some v) :
    ∃ ds u, v = ds ++ u ∧ ds ≠ [] ∧ (∀ c ∈ ds, isDigitC c = true) ∧
      (u = [] ∨ ∃ c, u = [c] ∧ isHeapUnit c = true) := by
  unfold occAt at h
  split_ifs at h with h0
  · revert h
    split
    · rename_i v' r' hm
      intro h
      cases h
      exact matchSizeVal_shape _ _ _ _ hm
    · rename_i hm
      split
      · rename_i c cs
        split_ifs with hws
        · intro h
          rcases Option.map_eq_some'.mp h with ⟨⟨v', r'⟩, hm', hv⟩
          cases hv
          exact matchSizeVal_shape _ _ _ _ hm'
        · intro h; cases h
      · intro h; cases h
  · revert h
    split
    · rename_i c cs heq
      split_ifs with hws
      · intro h
        rcases Option.map_eq_some'.mp h with ⟨⟨v', r'⟩, hm', hv⟩
        cases hv
        exact matchSizeVal_shape _ _ _ _ hm'
      · intro h; cases h
    · intro h; cases h

theorem scanB_size_shape (pfx input v : Chars) (i : ℕ)
    (h : (v, i) ∈ scanB (matchSizeVal pfx) input) :
    ∃ ds u, v = ds ++ u ∧ ds ≠ [] ∧ (∀ c ∈ ds, isDigitC c = true) ∧
      (u = [] ∨ ∃ c, u = [c] ∧ isHeapUnit c = true) :=
  occAt_size_shape pfx input v i ((mem_scanB _ _ _ _).mp h).2

theorem rightmostSize_nonneg (l : List (Chars × ℕ)) : 0 ≤ rightmostSize l := by
  unfold rightmostSize
  rcases h : pickRightmost l with - | ⟨v, p⟩ <;> dsimp only
  · exact le_refl _
  · rcases h2 : parseMemorySize v with - | x <;> dsimp only
    · exact le_refl _
    · exact parseMemorySize_nonneg v x h2

/-! ### C3, C8, C10 (the `containers/jvm_param_parser.go` resolver) -/

def c3ex1 : Chars := ("-Xmx1g -XX:MaxHeapSize=4g".data)
def c3ex2 : Chars := ("-XX:MaxHeapSize=4g -Xmx1g".data)

/-- C3: for every input blob, the occurrences of both spellings of a heap
kind are pooled and the pooled winner (the value resolved by the code) is
an occurrence of maximal character offset, regardless of spelling; in the
two concrete blobs of the claim the resolved max heap is 4·1024³ and,
with the flags swapped, 1·1024³. -/
theorem c3_theorem :
    (∀ (input : Chars) (vp : Chars × ℕ), vp ∈ maxHeapMatchesOf input →
      ∃ w, pickRightmost (maxHeapMatchesOf input) = some w ∧
        w ∈ maxHeapMatchesOf input ∧ vp.2 ≤ w.2) ∧
    (∀ (input : Chars) (vp : Chars × ℕ), vp ∈ initHeapMatchesOf input →
      ∃ w, pickRightmost (initHeapMatchesOf input) = some w ∧
        w ∈ initHeapMatchesOf input ∧ vp.2 ≤ w.2) ∧
    (parseJVMParamsFromString c3ex1).JavaMaxHeapSize = 4294967296 ∧
    (parseJVMParamsFromString c3ex2).JavaMaxHeapSize = 1073741824 := by
  refine ⟨?_, ?_, by decide, by decide⟩
  · intro input vp hvp
    obtain ⟨w, hw⟩ := pickRightmost_some _ (List.ne_nil_of_mem hvp)
    refine ⟨w, hw, ?_, pick_mem_le _ _ _ hw _ hvp⟩
    rcases pick_mem _ _ _ hw with h | h
    · cases h
    · exact h
  · intro input vp hvp
    obtain ⟨w, hw⟩ := pickRightmost_some _ (List.ne_nil_of_mem hvp)
    refine ⟨w, hw, ?_, pick_mem_le _ _ _ hw _ hvp⟩
    rcases pick_mem _ _ _ hw with h | h
    · cases h
    · exact h

/-- C3 witness: the universal part instantiated at the first concrete
blob of the claim. -/
theorem c3_witness :
    (("1g".data, 0) ∈ maxHeapMatchesOf c3ex1) ∧
    ∃ w, pickRightmost (maxHeapMatchesOf c3ex1) = some w ∧
      w ∈ maxHeapMatchesOf c3ex1 ∧ 0 ≤ w.2 :=
  ⟨by decide, c3_theorem.1 c3ex1 (("1g".data), 0) (by decide)⟩

/-- C8: the percentage-sentinel invariant of the resolver: a heap-size
field equal to -1 forces the corresponding percentage field positive, and
a positive max (resp. initial) percentage with no absolute occurrence of
that kind forces the -1 sentinel. -/
theorem c8_theorem : ∀ input : Chars,
    ((parseJVMParamsFromString input).JavaMaxHeapSize = -1 →
      0 < (parseJVMParamsFromString input).JavaMaxHeapAsPercentage) ∧
    ((parseJVMParamsFromString input).JavaInitialHeapSize = -1 →
      0 < (parseJVMParamsFromString input).JavaInitialHeapAsPercentage) ∧
    (0 < (parseJVMParamsFromString input).JavaMaxHeapAsPercentage →
      maxHeapMatchesOf input = [] →
      (parseJVMParamsFromString input).JavaMaxHeapSize = -1) ∧
    (0 < (parseJVMParamsFromString input).JavaInitialHeapAsPercentage →
      initHeapMatchesOf input = [] →
      (parseJVMParamsFromString input).JavaInitialHeapSize = -1) := by
  intro input
  unfold parseJVMParamsFromString
  dsimp only
  have hmax := rightmostSize_nonneg (maxHeapMatchesOf input)
  have hinit := rightmostSize_nonneg (initHeapMatchesOf input)
  by_cases hp : 0 < parsePercentage (joinComma (scanXXAll input)) maxRAMPctName <;>
    by_cases hq : 0 < parsePercentage (joinComma (scanXXAll input)) initRAMPctName <;>
      refine ⟨?_, ?_, ?_, ?_⟩ <;> simp [hp, hq] <;> intros <;> linarith

/-- C8 witness: the invariant applied to a percentage-only blob. -/
theorem c8_witness :
    (parseJVMParamsFromString ("java -XX:MaxRAMPercentage=75.0".data)).JavaMaxHeapSize = -1 :=
  (c8_theorem ("java -XX:MaxRAMPercentage=75.0".data)).2.2.1 (by decide) (by decide)

def c10cex : Chars := ("-Xmx2.5g".data)

/-- C10 counterexample: the claim says a size flag whose value contains a
decimal point is never captured and contributes no value; on
`-Xmx2.5g` the extractor captures the digit prefix `2` at offset 0 and
the resolved max heap is 2 bytes, not 0. -/
theorem c10_counterexample :
    maxHeapMatchesOf c10cex = [(("2".data), 0)] ∧
    (parseJVMParamsFromString c10cex).JavaMaxHeapSize = 2 ∧
    ((2 : ℚ) = 0 → False) := by
  refine ⟨by decide, by decide, by norm_num⟩

/-- C10 amended: the extractor only captures values of the shape
`digits` plus an optional single unit letter `[kmgKMG]`; a value with a
decimal point or an unrecognized unit is captured *truncated* at the
offending character rather than rejected (`-Xmx2.5g` contributes 2 bytes,
`-Xmx1t` contributes 1 byte); a flag not preceded by start-of-string or
whitespace (`--Xmx2g`) or with wrong case (`-XMS512m`) never matches. -/
theorem c10_theorem :
    (∀ (input v : Chars) (i : ℕ), (v, i) ∈ maxHeapMatchesOf input →
      ∃ ds u, v = ds ++ u ∧ ds ≠ [] ∧ (∀ c ∈ ds, isDigitC c = true) ∧
        (u = [] ∨ ∃ c, u = [c] ∧ isHeapUnit c = true)) ∧
    (parseJVMParamsFromString ("-Xmx2.5g".data)).JavaMaxHeapSize = 2 ∧
    (parseJVMParamsFromString ("-Xmx1t".data)).JavaMaxHeapSize = 1 ∧
    maxHeapMatchesOf ("java --Xmx2g -XMS512m".data) = [] ∧
    initHeapMatchesOf ("java --Xmx2g -XMS512m".data) = [] ∧
    parseJVMParamsFromString ("java --Xmx2g -XMS512m".data) = {} := by
  refine ⟨?_, by decide, by decide, by decide, by decide, by decide⟩
  intro input v i hmem
  rcases List.mem_append.mp hmem with h | h
  · exact scanB_size_shape xmxPfx input v i h
  · exact scanB_size_shape xxMaxHeapPfx input v i h

/-! ### C1, C2 (the position-tracking part_000 variant) -/

/-- Projection of the initial-heap fields of the position-tracking
variant: the max-heap case analysis never touches them. -/
theorem v2_init_fields (input : Chars) :
    (parseJVMParamsFromStringV2 input).JavaInitialHeapSize =
      (if 0 < parsePercentage (joinComma (scanXXAll input)) initRAMPctName then
        (if rightmostSize (initHeapMatchesOf input) = 0 then -1
         else rightmostSize (initHeapMatchesOf input))
       else rightmostSize (initHeapMatchesOf input)) ∧
    (parseJVMParamsFromStringV2 input).JavaInitialHeapAsPercentage =
      parsePercentage (joinComma (scanXXAll input)) initRAMPctName := by
  unfold parseJVMParamsFromStringV2
  dsimp only
  rcases hpick : pickRightmost (maxHeapMatchesOf input) with - | ⟨v, p⟩
  · rcases hlast : (scanPct maxRAMPctName input).getLast? with - | ⟨v0, q⟩ <;>
      exact ⟨rfl, rfl⟩
  · rcases hpm : parseMemorySize v with - | x <;>
      rcases hlast : (scanPct maxRAMPctName input).getLast? with - | ⟨v0, q⟩ <;>
        exact ⟨rfl, rfl⟩

def c1cex : Chars := ("-Xmx0 -XX:MaxRAMPercentage=50.0".data)

/-- C1 counterexample: in the blob `-Xmx0 -XX:MaxRAMPercentage=50.0`
both an absolute max-heap flag and a percentage flag are present and
there is exactly one absolute occurrence, yet the resolved max heap is
the -1 sentinel — refuting "the absolute size is authoritative unless
more than one absolute occurrence exists and the percentage is last". -/
theorem c1_counterexample :
    (parseJVMParamsFromStringV2 c1cex).JavaMaxHeapSize = -1 ∧
    (maxHeapMatchesOf c1cex).length = 1 ∧
    scanPct maxRAMPctName c1cex ≠ [] := by
  exact ⟨by decide, by decide, by decide⟩

/-- Max-heap field of the position-tracking variant when the rightmost
absolute occurrence parses. -/
theorem v2_max_some (input v v0 : Chars) (p q : ℕ) (x : ℚ)
    (hpick : pickRightmost (maxHeapMatchesOf input) = some (v, p))
    (hlast : (scanPct maxRAMPctName input).getLast? = some (v0, q))
    (hpm : parseMemorySize v = some x) :
    (parseJVMParamsFromStringV2 input).JavaMaxHeapSize =
      (if 0 < parsePercentage (joinComma (scanXXAll input)) maxRAMPctName then
        (if x = 0 then -1
         else if 1 < (maxHeapMatchesOf input).length ∧ (p : ℤ) < (q : ℤ) then -1
         else x)
       else x) ∧
    (parseJVMParamsFromStringV2 input).JavaMaxHeapAsPercentage =
      parsePercentage (joinComma (scanXXAll input)) maxRAMPctName := by
  unfold parseJVMParamsFromStringV2
  dsimp only
  rw [hpick]
  dsimp only
  rw [hpm, hlast]
  exact ⟨rfl, rfl⟩

/-- Max-heap field of the position-tracking variant when the rightmost
absolute occurrence fails to parse: the stored size is 0, so a positive
percentage forces the sentinel. -/
theorem v2_max_none (input v v0 : Chars) (p q : ℕ)
    (hpick : pickRightmost (maxHeapMatchesOf input) = some (v, p))
    (hlast : (scanPct maxRAMPctName input).getLast? = some (v0, q))
    (hpm : parseMemorySize v = none) :
    (parseJVMParamsFromStringV2 input).JavaMaxHeapSize =
      (if 0 < parsePercentage (joinComma (scanXXAll input)) maxRAMPctName then -1 else 0) ∧
    (parseJVMParamsFromStringV2 input).JavaMaxHeapAsPercentage =
      parsePercentage (joinComma (scanXXAll input)) maxRAMPctName := by
  unfold parseJVMParamsFromStringV2
  dsimp only
  rw [hpick]
  dsimp only
  rw [hpm, hlast]
  refine ⟨?_, rfl⟩
  by_cases hp0 : 0 < parsePercentage (joinComma (scanXXAll input)) maxRAMPctName <;>
    simp [hp0]

/-- C1 amended: when both an absolute max-heap flag and a
`-XX:MaxRAMPercentage` flag occur, the resolved max heap is either the -1
sentinel or the rightmost absolute size, and it is the sentinel exactly
when the parsed percentage is positive and either the rightmost absolute
value parses to 0 bytes, or more than one absolute occurrence exists and
the last percentage occurrence's offset exceeds the offsets of all
absolute occurrences. -/
theorem c1_theorem : ∀ input : Chars,
    maxHeapMatchesOf input ≠ [] →
    scanPct maxRAMPctName input ≠ [] →
    ((parseJVMParamsFromStringV2 input).JavaMaxHeapSize = -1 ∨
      (parseJVMParamsFromStringV2 input).JavaMaxHeapSize
        = rightmostSize (maxHeapMatchesOf input)) ∧
    ((parseJVMParamsFromStringV2 input).JavaMaxHeapSize = -1 ↔
      (0 < (parseJVMParamsFromStringV2 input).JavaMaxHeapAsPercentage ∧
        (rightmostSize (maxHeapMatchesOf input) = 0 ∨
          (1 < (maxHeapMatchesOf input).length ∧
            ∀ x ∈ maxHeapMatchesOf input, (x.2 : ℤ) < lastPctPosOf input)))) := by
  intro input hmaxne hpctne
  obtain ⟨⟨v, p⟩, hpick⟩ := pickRightmost_some _ hmaxne
  have hvmem : (v, p) ∈ maxHeapMatchesOf input := by
    rcases pick_mem _ _ _ hpick with h | h
    · cases h
    · exact h
  have hple : ∀ x ∈ maxHeapMatchesOf input, x.2 ≤ p := pick_mem_le _ _ _ hpick
  rcases hlast : (scanPct maxRAMPctName input).getLast? with - | ⟨v0, q⟩
  · exact absurd (List.getLast?_eq_none_iff.mp hlast) hpctne
  · have hlp : lastPctPosOf input = (q : ℤ) := by
      unfold lastPctPosOf
      rw [hlast]
    have horder : (1 < (maxHeapMatchesOf input).length ∧ (p : ℤ) < (q : ℤ)) ↔
        (1 < (maxHeapMatchesOf input).length ∧
          ∀ x ∈ maxHeapMatchesOf input, (x.2 : ℤ) < (q : ℤ)) := by
      constructor
      · rintro ⟨h1, h2⟩
        refine ⟨h1, fun y hy => ?_⟩
        have := hple y hy
        omega
      · rintro ⟨h1, h2⟩
        exact ⟨h1, h2 _ hvmem⟩
    rcases hpm : parseMemorySize v with - | x
    · obtain ⟨hf, hpc⟩ := v2_max_none input v v0 p q hpick hlast hpm
      have hrs : rightmostSize (maxHeapMatchesOf input) = 0 := by
        unfold rightmostSize
        rw [hpick]
        dsimp only
        rw [hpm]
      rw [hf, hpc, hrs, hlp]
      by_cases hp0 : 0 < parsePercentage (joinComma (scanXXAll input)) maxRAMPctName
      · rw [if_pos hp0]
        refine ⟨Or.inl rfl, ?_⟩
        constructor
        · intro _
          exact ⟨hp0, Or.inl rfl⟩
        · intro _
          rfl
      · rw [if_neg hp0]
        refine ⟨Or.inr rfl, ?_⟩
        constructor
        · intro h
          norm_num at h
        · rintro ⟨h, -⟩
          exact absurd h hp0
    · obtain ⟨hf, hpc⟩ := v2_max_some input v v0 p q x hpick hlast hpm
      have hrs : rightmostSize (maxHeapMatchesOf input) = x := by
        unfold rightmostSize
        rw [hpick]
        dsimp only
        rw [hpm]
      have hx0 : 0 ≤ x := parseMemorySize_nonneg v x hpm
      rw [hf, hpc, hrs, hlp]
      by_cases hp0 : 0 < parsePercentage (joinComma (scanXXAll input)) maxRAMPctName
      · rw [if_pos hp0]
        by_cases hx : x = 0
        · rw [if_pos hx]
          refine ⟨Or.inl rfl, ?_⟩
          constructor
          · intro _
            exact ⟨hp0, Or.inl hx⟩
          · intro _
            rfl
        · rw [if_neg hx]
          by_cases hcond : 1 < (maxHeapMatchesOf input).length ∧ (p : ℤ) < (q : ℤ)
          · rw [if_pos hcond]
            refine ⟨Or.inl rfl, ?_⟩
            constructor
            · intro _
              exact ⟨hp0, Or.inr (horder.mp hcond)⟩
            · intro _
              rfl
          · rw [if_neg hcond]
            refine ⟨Or.inr rfl, ?_⟩
            constructor
            · intro h
              rw [h] at hx0
              norm_num at hx0
            · rintro ⟨-, h | h⟩
              · exact absurd h hx
              · exact absurd (horder.mpr h) hcond
      · rw [if_neg hp0]
        refine ⟨Or.inr rfl, ?_⟩
        constructor
        · intro h
          rw [h] at hx0
          norm_num at hx0
        · rintro ⟨h, -⟩
          exact absurd h hp0

def c1wit : Chars := ("-Xmx1g -Xmx2g -XX:MaxRAMPercentage=75.0".data)

/-- C1 witness: two absolute occurrences with a trailing percentage give
the -1 sentinel. -/
theorem c1_witness : (parseJVMParamsFromStringV2 c1wit).JavaMaxHeapSize = -1 :=
  ((c1_theorem c1wit (by decide) (by decide)).2).mpr (by decide)

def c2cex : Chars := ("-Xms0 -XX:InitialRAMPercentage=50.0".data)

/-- C2 counterexample: with `-Xms0 -XX:InitialRAMPercentage=50.0` both an
absolute initial-heap flag and an initial percentage flag are present,
yet the resolved initial heap is the -1 sentinel — refuting "the
resolved initial-heap value is the absolute size (never -1)". -/
theorem c2_counterexample :
    (parseJVMParamsFromStringV2 c2cex).JavaInitialHeapSize = -1 ∧
    initHeapMatchesOf c2cex ≠ [] ∧
    0 < (parseJVMParamsFromStringV2 c2cex).JavaInitialHeapAsPercentage := by
  exact ⟨by decide, by decide, by decide⟩

/-- C2 amended: when an absolute initial-heap flag is present, the
resolved initial heap is the rightmost absolute size, except that a
positive initial percentage together with a rightmost absolute value of
0 bytes yields the -1 sentinel; in particular the absolute size wins
regardless of occurrence count or percentage position whenever it is
nonzero. -/
theorem c2_theorem : ∀ input : Chars,
    initHeapMatchesOf input ≠ [] →
    (parseJVMParamsFromStringV2 input).JavaInitialHeapSize =
      (if 0 < (parseJVMParamsFromStringV2 input).JavaInitialHeapAsPercentage ∧
          rightmostSize (initHeapMatchesOf input) = 0
        then -1 else rightmostSize (initHeapMatchesOf input)) := by
  intro input _
  obtain ⟨h1, h2⟩ := v2_init_fields input
  rw [h1, h2]
  by_cases hp : 0 < parsePercentage (joinComma (scanXXAll input)) initRAMPctName <;>
    by_cases hz : rightmostSize (initHeapMatchesOf input) = 0 <;>
      simp [hp, hz]

def c2wit : Chars := ("-Xms512m -XX:InitialRAMPercentage=25.0".data)

/-- C2 witness: a nonzero absolute initial size beats a percentage flag
in either position. -/
theorem c2_witness : (parseJVMParamsFromStringV2 c2wit).JavaInitialHeapSize = 536870912 :=
  (c2_theorem c2wit (by decide)).trans (by decide)

/-! ### C4 (blob construction and command-line-over-environment override) -/

/-- Spec-side description of the blob pieces: the non-empty values of the
four environment variables in their fixed order. -/
def envVals (env : List (Chars × Chars)) : List Chars :=
  envVarNames.filterMap fun name =>
    match lookupEnv env name with
    | some v => if v.isEmpty then none else some v
    | none => none

def intercalateSp : List Chars → Chars
  | [] => []
  | [v] => v
  | v :: vs => v ++ ' ' :: intercalateSp vs

/-- Spec-side blob: the non-empty environment values space-joined in
order, with the command line appended last. -/
def blobSpec (env : List (Chars × Chars)) (cmdline : Chars) : Chars :=
  intercalateSp (envVals env ++ (if cmdline.isEmpty then [] else [cmdline]))

theorem intercalateSp_eq_join (v : Chars) :
    ∀ vs : List Chars, intercalateSp (v :: vs) = v ++ (vs.map (' ' :: ·)).flatten := by
  intro vs
  induction vs generalizing v with
  | nil => simp [intercalateSp]
  | cons w ws ih =>
    show v ++ ' ' :: intercalateSp (w :: ws) = _
    rw [ih w]
    simp

theorem env_fold_eq (env : List (Chars × Chars)) (names : List Chars) :
    ∀ acc : Chars,
      names.foldl (fun acc name =>
        match lookupEnv env name with
        | some v => if v.isEmpty then acc else appendPiece acc v
        | none => acc) acc
      = (names.filterMap fun name =>
          match lookupEnv env name with
          | some v => if v.isEmpty then none else some v
          | none => none).foldl appendPiece acc := by
  induction names with
  | nil => intro acc; rfl
  | cons n ns ih =>
    intro acc
    simp only [List.foldl_cons, List.filterMap_cons]
    rcases h : lookupEnv env n with - | v
    · exact ih acc
    · by_cases hv : v.isEmpty
      · simp only [hv, ite_true]
        exact ih acc
      · simp only [hv, ite_false, Bool.false_eq_true]
        rw [List.foldl_cons]
        exact ih (appendPiece acc v)

theorem vals_ne_nil (env : List (Chars × Chars)) (names : List Chars) :
    ∀ x ∈ (names.filterMap fun name =>
        match lookupEnv env name with
        | some v => if v.isEmpty then none else some v
        | none => none), x ≠ [] := by
  intro x hx
  rcases List.mem_filterMap.mp hx with ⟨name, -, hm⟩
  rcases h : lookupEnv env name with - | v
  · rw [h] at hm
    cases hm
  · rw [h] at hm
    dsimp only at hm
    split_ifs at hm with hv
    cases hm
    simpa [List.isEmpty_iff] using hv

/-- Every piece of `envVals` is a non-empty string. -/
theorem envVals_ne_nil (env : List (Chars × Chars)) : ∀ x ∈ envVals env, x ≠ [] :=
  vals_ne_nil env envVarNames

theorem foldl_appendPiece_acc (vs : List Chars) :
    ∀ acc : Chars, acc ≠ [] → vs.foldl appendPiece acc = acc ++ (vs.map (' ' :: ·)).flatten := by
  induction vs with
  | nil => intro acc _; simp
  | cons v vs ih =>
    intro acc hacc
    have h1 : appendPiece acc v = acc ++ ' ' :: v := by
      unfold appendPiece
      rw [if_neg (by simpa [List.isEmpty_iff] using hacc)]
    rw [List.foldl_cons, h1, ih _ (by simp)]
    simp

theorem foldl_appendPiece_nil (vs : List Chars) (h : ∀ x ∈ vs, x ≠ []) :
    vs.foldl appendPiece [] = intercalateSp vs := by
  cases vs with
  | nil => rfl
  | cons v vs =>
    rw [List.foldl_cons, intercalateSp_eq_join]
    have h1 : appendPiece [] v = v := by simp [appendPiece]
    rw [h1]
    exact foldl_appendPiece_acc vs v (h v (List.mem_cons_self _ _))

theorem appendPiece_intercalate (vs : List Chars) (c : Chars) (h : ∀ x ∈ vs, x ≠ []) :
    appendPiece (intercalateSp vs) c = intercalateSp (vs ++ [c]) := by
  cases vs with
  | nil => simp [appendPiece, intercalateSp]
  | cons v vs =>
    have hv : v ≠ [] := h v (List.mem_cons_self _ _)
    have he : intercalateSp (v :: vs) ≠ [] := by
      rw [intercalateSp_eq_join]
      intro hcon
      exact hv (List.append_eq_nil.mp hcon).1
    unfold appendPiece
    rw [if_neg (by simpa [List.isEmpty_iff] using he)]
    rw [List.cons_append, intercalateSp_eq_join, intercalateSp_eq_join]
    simp

theorem intercalateSp_ne_nil (vs : List Chars) (h0 : vs ≠ []) (h : ∀ x ∈ vs, x ≠ []) :
    intercalateSp vs ≠ [] := by
  cases vs with
  | nil => exact absurd rfl h0
  | cons v vs =>
    rw [intercalateSp_eq_join]
    intro hcon
    exact (h v (List.mem_cons_self _ _)) (List.append_eq_nil.mp hcon).1

/-- `combinedArgs` builds exactly the spec-side blob. -/
theorem combinedArgs_eq (env : List (Chars × Chars)) (cmdline : Chars) :
    combinedArgs env cmdline = blobSpec env cmdline := by
  unfold combinedArgs blobSpec envVals
  dsimp only
  rw [env_fold_eq env envVarNames [],
    foldl_appendPiece_nil _ (vals_ne_nil env envVarNames)]
  by_cases hc : cmdline.isEmpty
  · simp [hc]
  · simp only [hc, ite_false, Bool.false_eq_true]
    exact appendPiece_intercalate _ _ (vals_ne_nil env envVarNames)

/-- With a non-empty environment part and a non-empty command line, the
blob is the environment prefix, a separating space, then the command
line. -/
theorem blobSpec_split (env : List (Chars × Chars)) (cmdline : Chars)
    (henv : envVals env ≠ []) (hcmd : ¬cmdline.isEmpty = true) :
    blobSpec env cmdline = intercalateSp (envVals env) ++ ' ' :: cmdline := by
  have hene : intercalateSp (envVals env) ≠ [] :=
    intercalateSp_ne_nil _ henv (envVals_ne_nil env)
  unfold blobSpec
  rw [if_neg hcmd, ← appendPiece_intercalate _ _ (envVals_ne_nil env)]
  unfold appendPiece
  rw [if_neg (by simpa [List.isEmpty_iff] using hene)]

theorem matchSizeVal_space (p : Char) (ps l : Chars) (h : p = '-') :
    matchSizeVal (p :: ps) (' ' :: l) = none := by
  subst h
  rfl

theorem occAt_shift (m : Chars → Option (Chars × Chars)) (a b v : Chars) (q : ℕ)
    (ha : a ≠ []) (hm : m (' ' :: b) = none)
    (h : occAt m (' ' :: b) q = some v) :
    occAt m (a ++ ' ' :: b) (a.length + q) = some v := by
  have hlen : ¬(a.length + q = 0) := by
    cases a with
    | nil => exact absurd rfl ha
    | cons c cs => simp
  unfold occAt at h ⊢
  rw [if_neg hlen, drop_append_len]
  cases q with
  | zero =>
    rw [if_pos rfl] at h
    rw [hm] at h
    dsimp only at h
    exact h
  | succ q' =>
    rw [if_neg (by omega)] at h
    exact h

theorem scanB_shift (m : Chars → Option (Chars × Chars)) (a b v : Chars) (q : ℕ)
    (ha : a ≠ []) (hm : m (' ' :: b) = none)
    (h : (v, q) ∈ scanB m (' ' :: b)) :
    (v, a.length + q) ∈ scanB m (a ++ ' ' :: b) := by
  rw [mem_scanB] at h ⊢
  obtain ⟨hq, hocc⟩ := h
  refine ⟨?_, occAt_shift m a b v q ha hm hocc⟩
  simp only [List.length_append, List.length_cons] at hq ⊢
  omega

def c4env : List (Chars × Chars) :=
  [(("JAVA_TOOL_OPTIONS".data), ("-Xmx2g -Xms512m -XX:+UseG1GC -XX:MaxGCPauseMillis=200".data))]

def c4cmd : Chars := ("-Xmx8g -XX:+UseZGC".data)

/-- C4: the resolver concatenates the non-empty values of
JAVA_TOOL_OPTIONS, _JAVA_OPTIONS, JDK_JAVA_OPTIONS, IBM_JAVA_OPTIONS in
that order, space-separated, with the command line appended last
(`combinedArgs = blobSpec`); consequently every size-flag occurrence
found in the (space-prefixed) command line reappears in the blob shifted
past the whole environment prefix, so it out-offsets every environment
occurrence; in the claim's override scenario the command line's
`-Xmx8g` beats the environment's `-Xmx2g` while the environment-only
`-Xms512m` still fills the initial heap. -/
theorem c4_theorem :
    (∀ (cmdline : Chars) (env : List (Chars × Chars)),
      parseJVMParams cmdline env = parseJVMParamsFromString (blobSpec env cmdline)) ∧
    (∀ (p : Char) (ps : Chars), p = '-' →
      ∀ (env : List (Chars × Chars)) (cmdline v : Chars) (q : ℕ),
        envVals env ≠ [] → ¬cmdline.isEmpty = true →
        (v, q) ∈ scanB (matchSizeVal (p :: ps)) (' ' :: cmdline) →
        (v, (intercalateSp (envVals env)).length + q)
          ∈ scanB (matchSizeVal (p :: ps)) (blobSpec env cmdline) ∧
        ∀ j : ℕ, j < (intercalateSp (envVals env)).length →
          j < (intercalateSp (envVals env)).length + q) ∧
    (parseJVMParams c4cmd c4env).JavaMaxHeapSize = 8589934592 ∧
    (parseJVMParams c4cmd c4env).JavaInitialHeapSize = 536870912 := by
  refine ⟨?_, ?_, by decide, by decide⟩
  · intro cmdline env
    unfold parseJVMParams
    rw [combinedArgs_eq]
  · rintro p ps rfl env cmdline v q henv hcmd hmem
    have hene : intercalateSp (envVals env) ≠ [] :=
      intercalateSp_ne_nil _ henv (envVals_ne_nil env)
    rw [blobSpec_split env cmdline henv hcmd]
    exact ⟨scanB_shift _ _ _ _ _ hene (matchSizeVal_space '-' ps cmdline rfl) hmem,
      fun j hj => by omega⟩

/-- C4 witness: the command-line `-Xmx8g` occurrence reappears in the
blob just past the environment prefix. -/
theorem c4_witness :
    (("8g".data), (intercalateSp (envVals c4env)).length + 0)
      ∈ scanB (matchSizeVal (('-' : Char) :: ("Xmx".data))) (blobSpec c4env c4cmd) :=
  (c4_theorem.2.1 '-' ("Xmx".data) rfl c4env c4cmd ("8g".data) 0
    (by decide) (by decide) (by decide)).1

/-! ### C5 (HotSpot/GraalVM GC classification) -/

/-- The category-major reading of the claim's inference rule: each
category is tested, in the fixed priority order, against *all* flags
before moving to the next category. -/
def inferGCCategoryMajor (flags : List Chars) : Chars :=
  if flags.any fun f => containsSub ("G1".data) f then ("G1GC".data)
  else if flags.any fun f =>
      containsSub ("Parallel".data) f && !containsSub ("-UseParallelGC".data) f then
    ("ParallelGC".data)
  else if flags.any fun f =>
      containsSub ("ConcMarkSweep".data) f || containsSub ("CMS".data) f then
    ("ConcMarkSweepGC".data)
  else if flags.any fun f =>
      containsSub ("Serial".data) f && !containsSub ("-UseSerialGC".data) f then
    ("SerialGC".data)
  else unknownGC

/-- The explicit table entry named by a flag (unique under the
at-most-one-pattern hypothesis). -/
def explicitGCOf (f : Chars) : Option Chars :=
  gcFlagsTable.findSome? fun e => if containsSub e.1 f then some e.2 else none

/-- Flag-major inference: the category of one flag, categories tested in
the fixed order. -/
def catOf (f : Chars) : Option Chars :=
  if containsSub ("G1".data) f then some ("G1GC".data)
  else if containsSub ("Parallel".data) f && !containsSub ("-UseParallelGC".data) f then
    some ("ParallelGC".data)
  else if containsSub ("ConcMarkSweep".data) f || containsSub ("CMS".data) f then
    some ("ConcMarkSweepGC".data)
  else if containsSub ("Serial".data) f && !containsSub ("-UseSerialGC".data) f then
    some ("SerialGC".data)
  else none

/-- Amended classification: the last flag naming an explicit enable
entry wins; otherwise the first flag matching any inference category
(flag-major) decides; otherwise Unknown. -/
def gcSpecAmended (flags : List Chars) : Chars :=
  match (flags.filterMap explicitGCOf).getLast? with
  | some ty => ty
  | none =>
    match flags.findSome? catOf with
    | some ty => ty
    | none => unknownGC

def c5cex : List Chars := [("-XX:MaxSerialX=1".data), ("-XX:G1HeapRegionSize=16m".data)]

/-- C5 counterexample: with no explicit enable flag, a first flag
containing a Serial token and a later flag containing a G1 token make
the code return SerialGC (flag-major scan), while the claim's fixed
priority order G1-before-Serial demands G1GC. -/
theorem c5_counterexample :
    parseHotSpotGCType c5cex = ("SerialGC".data) ∧
    inferGCCategoryMajor c5cex = ("G1GC".data) ∧
    (c5cex.any fun f => gcFlagsTable.any fun e => containsSub e.1 f) = false := by
  exact ⟨by decide, by decide, by decide⟩

theorem foldl_tbl_zero (f : Chars) (tbl : List (Chars × Chars))
    (h : (tbl.countP fun e => containsSub e.1 f) = 0) :
    ∀ acc, tbl.foldl (fun a e => if containsSub e.1 f then e.2 else a) acc = acc := by
  induction tbl with
  | nil => intro acc; rfl
  | cons e tbl ih =>
    intro acc
    rw [List.countP_cons] at h
    by_cases hc : containsSub e.1 f = true
    · rw [if_pos hc] at h
      omega
    · rw [if_neg hc] at h
      rw [List.foldl_cons, if_neg hc]
      exact ih (by omega) acc

theorem foldl_tbl_eq (f : Chars) (tbl : List (Chars × Chars))
    (h : (tbl.countP fun e => containsSub e.1 f) ≤ 1) :
    ∀ acc, tbl.foldl (fun a e => if containsSub e.1 f then e.2 else a) acc
      = match tbl.findSome? (fun e => if containsSub e.1 f then some e.2 else none) with
        | some ty => ty
        | none => acc := by
  induction tbl with
  | nil => intro acc; rfl
  | cons e tbl ih =>
    intro acc
    rw [List.countP_cons] at h
    rw [List.foldl_cons, List.findSome?_cons]
    by_cases hc : containsSub e.1 f = true
    · rw [if_pos hc] at h
      have hz : (tbl.countP fun e => containsSub e.1 f) = 0 := by omega
      rw [if_pos hc, if_pos hc]
      dsimp only
      exact foldl_tbl_zero f tbl hz e.2
    · rw [if_neg hc] at h
      rw [if_neg hc, if_neg hc]
      dsimp only
      exact ih (by omega) acc

theorem gcStep_eq (acc f : Chars)
    (h : (gcFlagsTable.countP fun e => containsSub e.1 f) ≤ 1) :
    gcStep acc f = match explicitGCOf f with | some ty => ty | none => acc :=
  foldl_tbl_eq f gcFlagsTable h acc

theorem getLast?_cons_eq {α : Type} (x : α) (l : List α) :
    (x :: l).getLast? = match l.getLast? with | some y => some y | none => some x := by
  cases l with
  | nil => rfl
  | cons y ys =>
    rw [List.getLast?_cons_cons]
    rcases h : (y :: ys).getLast? with - | z
    · exact absurd (List.getLast?_eq_none_iff.mp h) (by simp)
    · rfl

theorem gcStep_foldl_eq (flags : List Chars) :
    ∀ acc : Chars, (∀ f ∈ flags, (gcFlagsTable.countP fun e => containsSub e.1 f) ≤ 1) →
      flags.foldl gcStep acc
        = match (flags.filterMap explicitGCOf).getLast? with
          | some ty => ty
          | none => acc := by
  induction flags with
  | nil => intro acc _; rfl
  | cons f fs ih =>
    intro acc hone
    rw [List.foldl_cons, List.filterMap_cons]
    rw [gcStep_eq acc f (hone f (List.mem_cons_self _ _))]
    have hfs : ∀ g ∈ fs, (gcFlagsTable.countP fun e => containsSub e.1 g) ≤ 1 :=
      fun g hg => hone g (List.mem_cons_of_mem _ hg)
    rcases hx : explicitGCOf f with - | ty
    · exact ih acc hfs
    · dsimp only
      rw [ih ty hfs, getLast?_cons_eq]
      rcases hl : (fs.filterMap explicitGCOf).getLast? with - | ty2 <;> rfl

theorem inferGCLoop_eq (flags : List Chars) :
    inferGCLoop flags = match flags.findSome? catOf with | some ty => ty | none => [] := by
  induction flags with
  | nil => rfl
  | cons f fs ih =>
    rw [List.findSome?_cons]
    unfold inferGCLoop catOf
    split_ifs <;> first | rfl | exact ih

theorem exists_of_findSome {α β : Type} (l : List α) (g : α → Option β) (b : β)
    (h : l.findSome? g = some b) : ∃ a ∈ l, g a = some b := by
  induction l with
  | nil => cases h
  | cons a as ih =>
    rw [List.findSome?_cons] at h
    rcases hg : g a with - | b'
    · rw [hg] at h
      have h2 : as.findSome? g = some b := h
      obtain ⟨x, hx, hgx⟩ := ih h2
      exact ⟨x, List.mem_cons_of_mem _ hx, hgx⟩
    · rw [hg] at h
      have h2 : some b' = some b := h
      cases h2
      exact ⟨a, List.mem_cons_self _ _, hg⟩

theorem findSome?_tbl_ne_nil (f : Chars) (ty : Chars) (h : explicitGCOf f = some ty) :
    ty ≠ [] := by
  obtain ⟨e, hmem, hge⟩ := exists_of_findSome _ _ _ h
  have hty : ty = e.2 := by
    by_cases hc : containsSub e.1 f = true
    · rw [if_pos hc] at hge
      cases hge
      rfl
    · rw [if_neg hc] at hge
      cases hge
  subst hty
  unfold gcFlagsTable at hmem
  fin_cases hmem <;> decide

theorem catOf_ne_nil (f : Chars) (ty : Chars) (h : catOf f = some ty) : ty ≠ [] := by
  unfold catOf at h
  split_ifs at h <;> first
    | (cases h; decide)
    | cases h

theorem getLast?_mem_self {α : Type} (l : List α) (x : α) (h : l.getLast? = some x) :
    x ∈ l := by
  obtain ⟨hne, rfl⟩ := List.mem_getLast?_eq_getLast (Option.mem_def.mpr h)
  exact List.getLast_mem hne

/-- C5 amended: under the hypothesis that no single flag contains more
than one explicit `+Use<Name>GC` pattern, the classifier returns the
entry of the last flag naming an explicit enable pattern; with no
explicit flag it returns the category of the first flag matching any
inference category, the categories being tested in the order G1,
Parallel (excluding -UseParallelGC), ConcMarkSweep/CMS, Serial
(excluding -UseSerialGC) within each flag; otherwise Unknown. -/
theorem c5_theorem : ∀ flags : List Chars,
    (∀ f ∈ flags, (gcFlagsTable.countP fun e => containsSub e.1 f) ≤ 1) →
    parseHotSpotGCType flags = gcSpecAmended flags := by
  intro flags hone
  unfold parseHotSpotGCType gcSpecAmended
  rw [gcStep_foldl_eq flags [] hone]
  rcases hl : (flags.filterMap explicitGCOf).getLast? with - | ty
  · dsimp only
    rw [inferGCLoop_eq]
    rcases hf : flags.findSome? catOf with - | ty2 <;> dsimp only
    · rfl
    · obtain ⟨g, -, hg⟩ := exists_of_findSome _ _ _ hf
      have hne2 := catOf_ne_nil g ty2 hg
      simp only [List.isEmpty_nil, if_true]
      rw [if_neg (by simpa [List.isEmpty_iff] using hne2)]
  · dsimp only
    have hne : ty ≠ [] := by
      rcases List.mem_filterMap.mp (getLast?_mem_self _ _ hl) with ⟨g, -, hg⟩
      exact findSome?_tbl_ne_nil g ty hg
    rw [if_neg (by simpa [List.isEmpty_iff] using hne)]

def c5ex : List Chars :=
  [("-XX:+UseSerialGC".data), ("-XX:+UseParallelGC".data), ("-XX:+UseG1GC".data)]

/-- C5 witness: the claim's last-wins example. -/
theorem c5_witness : parseHotSpotGCType c5ex = ("G1GC".data) :=
  (c5_theorem c5ex (by decide)).trans (by decide)

/-- C10 witness: the shape part instantiated at a concrete occurrence. -/
theorem c10_witness :
    (("2g".data, 4) ∈ maxHeapMatchesOf ("java -Xmx2g".data)) ∧
    ∃ ds u, ("2g".data) = ds ++ u ∧ ds ≠ [] ∧ (∀ c ∈ ds, isDigitC c = true) ∧
      (u = [] ∨ ∃ c, u = [c] ∧ isHeapUnit c = true) :=
  ⟨by decide, c10_theorem.1 ("java -Xmx2g".data) ("2g".data) 4 (by decide)⟩

/-! ### C9 (percentage/fraction precedence in the fraction-aware parser)

Per-token selectors restating the branch positions of the `else if`
chain of `parseVMFlagsOutput`, and a fold characterization of each
percentage field. -/

def c6fl : Chars := ("-XX:MaxRAMPercentage=75.0".data)
def c6cmd : Chars := ("-XX:MaxRAMPercentage=50.0".data)

/-- C6 counterexample: the live dump `-XX:MaxRAMPercentage=75.0` yields a
percentage signal, yet the fallback is still consulted (the trigger only
checks the absolute size fields) and the fallback's `50.0` overwrites the
live dump's already-set percentage field. -/
theorem c6_counterexample :
    (parseVMFlagsOutputVendor c6fl (orchVendor c6fl none none)).JavaMaxHeapAsPercentage
      = ("75.0".data) ∧
    (ParseJVMParams (some c6fl) none none c6cmd).JavaMaxHeapAsPercentage = ("50.0".data) := by
  decide

/-- C6 amended: the fallback pass is consulted iff the live dump set
neither absolute heap-size field (percentage signals do not block it);
when consulted, each size and percentage field takes the fallback's
value whenever that value is non-empty (even if the live dump had set
the field) and keeps the live value otherwise, and the GC type is
replaced exactly when the live classification is `Unknown` and the
fallback's is not. -/
theorem c6_theorem : ∀ (fl : Chars) (props version : Option Chars) (cmdline : Chars)
    (p c : JVMParamsStr),
    p = parseVMFlagsOutputVendor fl (orchVendor fl props version) →
    c = parseFromCmdline cmdline →
    (¬(p.JavaMaxHeapSize.isEmpty = true ∧ p.JavaInitialHeapSize.isEmpty = true) →
      ParseJVMParams (some fl) props version cmdline = p) ∧
    (p.JavaMaxHeapSize.isEmpty = true → p.JavaInitialHeapSize.isEmpty = true →
      (ParseJVMParams (some fl) props version cmdline).JavaMaxHeapSize
        = (if c.JavaMaxHeapSize.isEmpty then p.JavaMaxHeapSize else c.JavaMaxHeapSize) ∧
      (ParseJVMParams (some fl) props version cmdline).JavaInitialHeapSize
        = (if c.JavaInitialHeapSize.isEmpty then p.JavaInitialHeapSize else c.JavaInitialHeapSize) ∧
      (ParseJVMParams (some fl) props version cmdline).JavaMaxHeapAsPercentage
        = (if c.JavaMaxHeapAsPercentage.isEmpty then p.JavaMaxHeapAsPercentage
           else c.JavaMaxHeapAsPercentage) ∧
      (ParseJVMParams (some fl) props version cmdline).JavaInitialHeapAsPercentage
        = (if c.JavaInitialHeapAsPercentage.isEmpty then p.JavaInitialHeapAsPercentage
           else c.JavaInitialHeapAsPercentage) ∧
      (ParseJVMParams (some fl) props version cmdline).GCType
        = (if p.GCType = unknownGC ∧ c.GCType ≠ unknownGC then c.GCType else p.GCType)) := by
  intro fl props version cmdline p c hp hc
  constructor
  · intro hne
    unfold ParseJVMParams
    dsimp only
    rw [if_neg (by rw [← hp]; simpa [Bool.and_eq_true] using hne)]
    exact hp.symm
  · intro h1 h2
    rw [hp] at h1 h2
    unfold ParseJVMParams
    dsimp only
    rw [if_pos (by rw [Bool.and_eq_true]; exact ⟨h1, h2⟩)]
    rw [hp, hc]
    refine ⟨?_, ?_, ?_, ?_, rfl⟩ <;>
      · unfold mergeFallback
        dsimp only
        generalize parseVMFlagsOutputVendor fl (orchVendor fl props version) = P
        generalize parseFromCmdline cmdline = C
        first
        | (by_cases hx : C.JavaMaxHeapSize.isEmpty = true
           · rw [if_pos hx, if_neg (by simp [hx])]
           · rw [if_neg hx, if_pos (by simp [hx])])
        | (by_cases hx : C.JavaInitialHeapSize.isEmpty = true
           · rw [if_pos hx, if_neg (by simp [hx])]
           · rw [if_neg hx, if_pos (by simp [hx])])
        | (by_cases hx : C.JavaMaxHeapAsPercentage.isEmpty = true
           · rw [if_pos hx, if_neg (by simp [hx])]
           · rw [if_neg hx, if_pos (by simp [hx])])
        | (by_cases hx : C.JavaInitialHeapAsPercentage.isEmpty = true
           · rw [if_pos hx, if_neg (by simp [hx])]
           · rw [if_neg hx, if_pos (by simp [hx])])

/-- C6 witness: the merge characterization applied to the
counterexample inputs. -/
theorem c6_witness :
    (ParseJVMParams (some c6fl) none none c6cmd).JavaMaxHeapAsPercentage = ("50.0".data) := by
  have h := (c6_theorem c6fl none none c6cmd _ _ rfl rfl).2 (by decide) (by decide)
  rw [h.2.2.1]
  decide

/-! ### C7 (totality of the entry point and the cmdline-only path) -/

/-- An argument that triggers none of the branches of `cmdStep` and none
of the substring tests of `parseGCTypeFromCmdline`. -/
def cmdNoSignal (arg : Chars) : Bool :=
  !hasPfxB ("-Xmx".data) arg && !hasPfxB ("-Xms".data) arg &&
  !hasPfxB ("-XX:MaxHeapSize=".data) arg && !hasPfxB ("-XX:InitialHeapSize=".data) arg &&
  !hasPfxB ("-XX:MaxRAMPercentage=".data) arg && !hasPfxB ("-XX:InitialRAMPercentage=".data) arg &&
  !containsSub ("-XX:+UseZGC".data) arg && !containsSub ("-XX:+UseShenandoahGC".data) arg &&
  !containsSub ("-XX:+UseG1GC".data) arg && !containsSub ("-XX:+UseParallelGC".data) arg &&
  !containsSub ("-XX:+UseParallelOldGC".data) arg &&
  !containsSub ("-XX:+UseConcMarkSweepGC".data) arg && !containsSub ("-XX:+UseSerialGC".data) arg &&
  !containsSub ("-Xgcpolicy:gencon".data) arg && !containsSub ("-Xgcpolicy:optthruput".data) arg &&
  !containsSub ("-Xgcpolicy:optavgpause".data) arg && !containsSub ("-Xgcpolicy:balanced".data) arg

theorem cmdStep_noSignal (p : JVMParamsStr) (arg : Chars) (h : cmdNoSignal arg = true) :
    cmdStep p arg = p := by
  simp only [cmdNoSignal, Bool.and_eq_true, Bool.not_eq_true'] at h
  obtain ⟨⟨⟨⟨⟨⟨⟨⟨⟨⟨⟨⟨⟨⟨⟨⟨h1, h2⟩, h3⟩, h4⟩, h5⟩, h6⟩, -⟩, -⟩, -⟩, -⟩, -⟩, -⟩, -⟩, -⟩, -⟩, -⟩, -⟩ := h
  unfold cmdStep
  simp only [h1, h2, h3, h4, h5, h6]
  rfl

theorem foldl_cmdStep_noSignal (args : List Chars) (h : ∀ arg ∈ args, cmdNoSignal arg = true) :
    ∀ p, args.foldl cmdStep p = p := by
  induction args with
  | nil => intro p; rfl
  | cons a rest ih =>
    intro p
    rw [List.foldl_cons, cmdStep_noSignal p a (h a (List.mem_cons_self a rest))]
    exact ih (fun x hx => h x (List.mem_cons_of_mem a hx)) p

theorem gcFromCmdline_noSignal (args : List Chars) (h : ∀ arg ∈ args, cmdNoSignal arg = true) :
    parseGCTypeFromCmdline args = unknownGC := by
  induction args with
  | nil => rfl
  | cons a rest ih =>
    have ha := h a (List.mem_cons_self a rest)
    simp only [cmdNoSignal, Bool.and_eq_true, Bool.not_eq_true'] at ha
    obtain ⟨ha, g11⟩ := ha
    obtain ⟨ha, g10⟩ := ha
    obtain ⟨ha, g9⟩ := ha
    obtain ⟨ha, g8⟩ := ha
    obtain ⟨ha, g7⟩ := ha
    obtain ⟨ha, g6⟩ := ha
    obtain ⟨ha, g5⟩ := ha
    obtain ⟨ha, g4⟩ := ha
    obtain ⟨ha, g3⟩ := ha
    obtain ⟨ha, g2⟩ := ha
    obtain ⟨ha, g1⟩ := ha
    unfold parseGCTypeFromCmdline
    simp only [g1, g2, g3, g4, g5, g6, g7, g8, g9, g10, g11]
    exact ih (fun x hx => h x (List.mem_cons_of_mem a hx))

/-- C7: the entry point is total by construction; a failing transport
(`vmFlags = none`) makes the result exactly the command-line-only parse,
and a command line with no recognized token leaves every field at its
zero value (empty strings, GC type `Unknown`). -/
theorem c7_theorem : ∀ (props version : Option Chars) (cmdline : Chars),
    ParseJVMParams none props version cmdline = parseFromCmdline cmdline ∧
    ((∀ arg ∈ fieldsGo cmdline, cmdNoSignal arg = true) →
      ParseJVMParams none props version cmdline = { GCType := unknownGC }) := by
  intro props version cmdline
  refine ⟨rfl, fun h => ?_⟩
  show parseFromCmdline cmdline = _
  unfold parseFromCmdline
  dsimp only
  rw [foldl_cmdStep_noSignal (fieldsGo cmdline) h, gcFromCmdline_noSignal (fieldsGo cmdline) h]

/-- C7 witness: a transport failure with the signal-free command line
`java -jar app.jar` gives the all-zero record. -/
theorem c7_witness :
    ParseJVMParams none none none ("java -jar app.jar".data)
        = parseFromCmdline ("java -jar app.jar".data) ∧
    ParseJVMParams none none none ("java -jar app.jar".data)
        = { GCType := unknownGC } :=
  ⟨(c7_theorem none none ("java -jar app.jar".data)).1,
   (c7_theorem none none ("java -jar app.jar".data)).2 (by decide)⟩

end JVMSpec
